import Mathlib

/-!
Verification of the PGL-SUM training/evaluation core (`model/solver.py`).

The numeric model is `Option ℚ`: `some q` is a finite float value (floats are
modelled as exact rationals), `none` is IEEE NaN.  All zero-denominator
divisions reachable in this code are of the form `0 / 0`, which numpy turns
into NaN, so modelling division-by-zero as `none` is faithful on every
reachable path.
-/

namespace PGLSum

/-- Addition on the float model: NaN propagates through `+`. -/
def nadd : Option ℚ → Option ℚ → Option ℚ
  | some a, some b => some (a + b)
  | _, _ => none

/-- Multiplication on the float model: NaN propagates through `*`. -/
def nmul : Option ℚ → Option ℚ → Option ℚ
  | some a, some b => some (a * b)
  | _, _ => none

/-- Division on the float model: NaN propagates, and a zero denominator
yields NaN (in the source every zero-denominator division is `0 / 0`). -/
def ndiv : Option ℚ → Option ℚ → Option ℚ
  | some a, some b => if b = 0 then none else some (a / b)
  | _, _ => none

/-- Python's `x == 0` on the float model: NaN compares unequal to 0. -/
def pyEqZero : Option ℚ → Bool
  | some a => a == 0
  | none => false

/-- Python's `a > b` on the float model: any comparison with NaN is false. -/
def pyGt : Option ℚ → Option ℚ → Bool
  | some a, some b => b < a
  | _, _ => false

/-- Python's builtin `max` on a nonempty list: start from the first element
and replace the current value only when the next item compares strictly
greater (comparisons with NaN are false, so NaN order matters). -/
def pyMaxStep (c n : Option ℚ) : Option ℚ := if pyGt n c then n else c

/-- Python's builtin `sum` over the collected f-scores (starts from 0). -/
def nsum (l : List (Option ℚ)) : Option ℚ := l.foldl nadd (some 0)

/-- Model of `np.mean` of a list of float values: `sum / len`; the empty list gives
NaN (numpy warns and returns NaN), and any NaN element propagates. -/
def npMean (l : List (Option ℚ)) : Option ℚ :=
  ndiv (nsum l) (some (l.length : ℚ))

/-- Result of a Python call: a returned value or a raised exception. -/
inductive PyResult where
  | ok (v : Option ℚ)
  | error (msg : String)
deriving DecidableEq, Repr

/-- Model of `S[:len(v)] = v` after `S = np.zeros(n, dtype=int)`: the vector is
left-aligned and the remaining positions keep the value 0. -/
def padTo (v : List ℕ) (n : ℕ) : List ℕ := v ++ List.replicate (n - v.length) 0

/-- One iteration of the annotator loop of `evaluate_summary`:
`overlapped = S & G`, `precision = sum(overlapped)/sum(S)`,
`recall = sum(overlapped)/sum(G)`, then the guarded f-score
`2 * precision * recall * 100 / (precision + recall)` with the
`precision+recall == 0` case mapped to 0. -/
def fScoreRow (S G : List ℕ) : Option ℚ :=
  let overlapped : List ℕ := List.zipWith (fun a b => a &&& b) S G
  let precision := ndiv (some (overlapped.sum : ℚ)) (some (S.sum : ℚ))
  let recallV := ndiv (some (overlapped.sum : ℚ)) (some (G.sum : ℚ))
  if pyEqZero (nadd precision recallV) then some 0
  else ndiv (nmul (nmul (nmul (some 2) precision) recallV) (some 100))
            (nadd precision recallV)

/-- Model of `evaluate_summary(predicted_summary, user_summary, eval_method)` from
`model/solver.py`.  `user_summary` is the list of annotator rows and `L` is
`user_summary.shape[1]` (numpy arrays are rectangular, so every row has
length `L`; theorems carry that hypothesis).  `S` and each `G` are the
left-aligned copies into zero vectors of length
`max(len(predicted_summary), L)`; the tail of `G` beyond `L` is never
written and stays 0.  `'max'` is Python's `max` (ValueError on an empty
list); any other method is `sum/len` (ZeroDivisionError on an empty list). -/
def evaluate_summary (predicted_summary : List ℕ) (user_summary : List (List ℕ))
    (L : ℕ) (eval_method : String) : PyResult :=
  let max_len := max predicted_summary.length L
  let S := padTo predicted_summary max_len
  let f_scores := user_summary.map (fun row => fScoreRow S (padTo row max_len))
  if eval_method = "max" then
    match f_scores with
    | [] => .error "max() arg is an empty sequence"
    | x :: xs => .ok (xs.foldl pyMaxStep x)
  else
    match f_scores with
    | [] => .error "division by zero"
    | _ => .ok (ndiv (nsum f_scores) (some (f_scores.length : ℚ)))

/-! ### Per-video F1 accumulation (train loop vs evaluation pass) -/

/-- Train-loop accumulation of a per-video F1 value
(`if not np.isnan(f1): f1_score.append(f1)`). -/
def trainF1Append (acc : List (Option ℚ)) (f1 : Option ℚ) : List (Option ℚ) :=
  if f1 = none then acc else acc ++ [f1]

/-- Evaluation-pass accumulation of a per-video F1 value
(`f1_test.append(f1_score)`, unconditional). -/
def evalF1Append (acc : List (Option ℚ)) (f1 : Option ℚ) : List (Option ℚ) :=
  acc ++ [f1]

/-- The train-loop F1 list collected over an epoch's videos. -/
def trainF1Collect (f1s : List (Option ℚ)) : List (Option ℚ) :=
  f1s.foldl trainF1Append []

/-- The evaluation-pass F1 list collected over a loader's videos. -/
def evalF1Collect (f1s : List (Option ℚ)) : List (Option ℚ) :=
  f1s.foldl evalF1Append []

/-! ### Weight initializer (`Solver.init_weights`)

A parameter tensor is modelled as a function `ℕ → ℚ` (flat index to entry).
The four framework initializers (`nn.init.normal_` etc.) are external,
randomized library calls; they are taken as abstract oracle arguments. -/

/-- Flat model of a parameter tensor. -/
def Tensor : Type := ℕ → ℚ

/-- Model of `nn.init.constant_(param, v)`: overwrite every entry with `v`. -/
def constant_ (v : ℚ) : Tensor → Tensor := fun _ _ => v

/-- Whether Python's `b in a` holds starting at the head of `a`. -/
def charsStart : List Char → List Char → Bool
  | _, [] => true
  | [], _ :: _ => false
  | a :: as, b :: bs => a == b && charsStart as bs

/-- Python's substring test `sub in s` on the underlying characters. -/
def charsHave : List Char → List Char → Bool
  | [], sub => sub.isEmpty
  | c :: rest, sub => charsStart (c :: rest) sub || charsHave rest sub

/-- Python's `sub in s` for strings. -/
def strHas (s sub : String) : Bool := charsHave s.data sub.data

/-- The guard of the first branch of `init_weights`:
`'weight' in name and "norm" not in name`. -/
def weightBranch (name : String) : Bool :=
  strHas name "weight" && !strHas name "norm"

/-- The guard of the second branch: `'bias' in name`. -/
def biasBranch (name : String) : Bool := strHas name "bias"

/-- The exception message of the unknown-policy branch. -/
def initErrMsg (init_type : String) : String :=
  "initialization method " ++ init_type ++ " is not implemented."

/-- Oracles standing for the randomized framework initializers, with the
gains of the source already absorbed (`normal_` with `std=init_gain`,
`xavier_uniform_`/`orthogonal_` with gain √2, `kaiming_uniform_`). -/
structure InitOracles where
  normalF : Tensor → Tensor
  xavierF : Tensor → Tensor
  kaimingF : Tensor → Tensor
  orthogonalF : Tensor → Tensor

/-- Model of `Solver.init_weights(net, init_type)` over the ordered list of
`net.named_parameters()`.  Mutation is in place in the source, so the
error case carries the parameter state at raise time: the already-visited
parameters keep their mutations, the offending parameter and the rest are
untouched. -/
def init_weights (F : InitOracles) (init_type : String) :
    List (String × Tensor) → Except (String × List (String × Tensor)) (List (String × Tensor))
  | [] => .ok []
  | (name, param) :: rest =>
    if weightBranch name then
      if init_type = "normal" then
        match init_weights F init_type rest with
        | .ok out => .ok ((name, F.normalF param) :: out)
        | .error (m, st) => .error (m, (name, F.normalF param) :: st)
      else if init_type = "xavier" then
        match init_weights F init_type rest with
        | .ok out => .ok ((name, F.xavierF param) :: out)
        | .error (m, st) => .error (m, (name, F.xavierF param) :: st)
      else if init_type = "kaiming" then
        match init_weights F init_type rest with
        | .ok out => .ok ((name, F.kaimingF param) :: out)
        | .error (m, st) => .error (m, (name, F.kaimingF param) :: st)
      else if init_type = "orthogonal" then
        match init_weights F init_type rest with
        | .ok out => .ok ((name, F.orthogonalF param) :: out)
        | .error (m, st) => .error (m, (name, F.orthogonalF param) :: st)
      else
        .error (initErrMsg init_type, (name, param) :: rest)
    else if biasBranch name then
      match init_weights F init_type rest with
      | .ok out => .ok ((name, constant_ (1/10) param) :: out)
      | .error (m, st) => .error (m, (name, constant_ (1/10) param) :: st)
    else
      match init_weights F init_type rest with
      | .ok out => .ok ((name, param) :: out)
      | .error (m, st) => .error (m, (name, param) :: st)

/-- The per-parameter effect of a supported policy, used to state the
closed form of `init_weights`. -/
def pickInit (F : InitOracles) : String → Tensor → Tensor
  | "normal" => F.normalF
  | "xavier" => F.xavierF
  | "kaiming" => F.kaimingF
  | "orthogonal" => F.orthogonalF
  | _ => id

/-- What one pass of the loop body does to one named parameter under a
supported policy. -/
def applyPolicy (F : InitOracles) (init_type : String) (p : String × Tensor) :
    String × Tensor :=
  if weightBranch p.1 then (p.1, pickInit F init_type p.2)
  else if biasBranch p.1 then (p.1, constant_ (1/10) p.2)
  else p

/-- The all-zero tensor, a concrete pre-initialization parameter value. -/
def zeroTensor : Tensor := fun _ => 0

/-- Concrete initializer oracles that leave tensors unchanged (one possible
behaviour of the randomized framework initializers). -/
def idOracles : InitOracles := ⟨id, id, id, id⟩

/-! ### Training loop skeleton (`Solver.train`)

The per-epoch mean loss is the only numerical input of the epoch-level
control flow; the forward/backward passes producing it are external model
calls, so the loop is modelled over an oracle `losses : ℕ → ℚ` giving each
epoch's mean loss.  The observable actions of an epoch after the
early-stopping check are recorded as events. -/

/-- Observable post-check actions of one epoch, in source order:
`writer.update_loss(..., 'loss_epoch')`, `torch.save`, `self.evaluate`,
and the logfile/stdout metric line. -/
inductive TEvent where
  | lossLog (epoch : ℕ)
  | checkpoint (epoch : ℕ)
  | evalPass (epoch : ℕ)
  | textLog (epoch : ℕ)
deriving DecidableEq, Repr

/-- The quantity `diff = (current_loss - last_loss) / current_loss * 100`. -/
def epochDiff (current last : ℚ) : ℚ := (current - last) / current * 100

/-- The epoch loop of `Solver.train`: check `diff >= tol` (tol = 7) and
break, otherwise emit the epoch's events and continue with
`last_loss = current_loss`.  Returns the event trace and the index of the
epoch that triggered the break, if any. -/
def trainEpochs (losses : ℕ → ℚ) : ℕ → ℕ → ℚ → List TEvent × Option ℕ
  | 0, _, _ => ([], none)
  | fuel + 1, i, last =>
    let current := losses i
    if epochDiff current last ≥ 7 then ([], some i)
    else
      let r := trainEpochs losses fuel (i + 1) current
      (TEvent.lossLog i :: TEvent.checkpoint i :: TEvent.evalPass i ::
        TEvent.textLog i :: r.1, r.2)

/-- Model of `Solver.train` at the epoch level: `last_loss` starts at 100000 and the
loop runs for at most `n_epochs` epochs. -/
def train (losses : ℕ → ℚ) (n_epochs : ℕ) : List TEvent × Option ℕ :=
  trainEpochs losses n_epochs 0 100000

/-- The `diff` value the loop computes at epoch `i`: epoch 0 compares
against the initial `last_loss = 100000`, epoch `i+1` against epoch `i`'s
mean loss. -/
def diffAt (losses : ℕ → ℚ) : ℕ → ℚ
  | 0 => epochDiff (losses 0) 100000
  | i + 1 => epochDiff (losses (i + 1)) (losses i)

/-- The four events an epoch emits when it does not trigger early stopping. -/
def epochEvents (i : ℕ) : List TEvent :=
  [TEvent.lossLog i, TEvent.checkpoint i, TEvent.evalPass i, TEvent.textLog i]

/-! ### Batch structure of one epoch (`Solver.train`, inner loops)

Videos are drawn from `iter(self.train_loader)` by `next(iterator)`; the
iterator is modelled as the list of remaining videos and `next` on an
exhausted iterator as a `StopIteration` error. -/

/-- Observable actions of the batch loop body, in source order. -/
inductive BEvent (V : Type) where
  | zeroGrad
  | video (v : V)
  | clipGrad
  | optStep
deriving DecidableEq, Repr

/-- The inner video loop: `for _ in range(batch_size): next(iterator); ...`.
Returns the emitted events and the remaining iterator, or `StopIteration`. -/
def videoLoop {V : Type} : ℕ → List V → Except Unit (List (BEvent V) × List V)
  | 0, vs => .ok ([], vs)
  | _ + 1, [] => .error ()
  | n + 1, v :: vs =>
    match videoLoop n vs with
    | .ok (evs, rest) => .ok (BEvent.video v :: evs, rest)
    | .error e => .error e

/-- The batch loop: `for _ in range(num_batches): zero_grad; videos; clip;
step`. -/
def batchLoop {V : Type} : ℕ → ℕ → List V → Except Unit (List (BEvent V))
  | 0, _, _ => .ok []
  | b + 1, bs, vs =>
    match videoLoop bs vs with
    | .ok (evs, rest) =>
      match batchLoop b bs rest with
      | .ok tail => .ok (BEvent.zeroGrad :: evs ++ BEvent.clipGrad :: BEvent.optStep :: tail)
      | .error e => .error e
    | .error e => .error e

/-- The training phase of one epoch: `num_batches = int(len(train_loader) /
batch_size)` batches over a fresh iterator on the whole training set. -/
def epochTrainPhase {V : Type} (videos : List V) (batch_size : ℕ) :
    Except Unit (List (BEvent V)) :=
  batchLoop (videos.length / batch_size) batch_size videos

/-! ### Helper lemmas about the scoring metric -/

theorem padTo_length {v : List ℕ} {n : ℕ} (h : v.length ≤ n) :
    (padTo v n).length = n := by
  simp [padTo, Nat.add_sub_cancel' h]

theorem padTo_idem {v : List ℕ} {n : ℕ} (h : v.length ≤ n) :
    padTo (padTo v n) n = padTo v n := by
  simp [padTo, padTo_length h]
  omega

theorem padTo_sum (v : List ℕ) (n : ℕ) : (padTo v n).sum = v.sum := by
  simp [padTo, List.sum_replicate]

theorem fScoreRow_none_of_S_sum_zero {S : List ℕ} (G : List ℕ)
    (h : S.sum = 0) : fScoreRow S G = none := by
  unfold fScoreRow
  simp only [h, Nat.cast_zero, ndiv, if_pos rfl]
  simp [nadd, pyEqZero, nmul, ndiv]

theorem foldl_nadd_none (l : List (Option ℚ)) : l.foldl nadd none = none := by
  induction l with
  | nil => rfl
  | cons x t ih => simpa [nadd] using ih

theorem foldl_nadd_of_none_mem {l : List (Option ℚ)} (h : none ∈ l)
    (acc : Option ℚ) : l.foldl nadd acc = none := by
  induction l generalizing acc with
  | nil => cases h
  | cons x t ih =>
    rcases List.mem_cons.mp h with h1 | h2
    · subst h1
      have : nadd acc none = none := by cases acc <;> rfl
      simp only [List.foldl_cons, this, foldl_nadd_none]
    · exact ih h2 _

theorem foldl_pyMaxStep_none {l : List (Option ℚ)}
    (h : ∀ x ∈ l, x = none) : l.foldl pyMaxStep none = none := by
  induction l with
  | nil => rfl
  | cons x t ih =>
    have hx : x = none := h x (List.mem_cons_self x t)
    subst hx
    simp only [List.foldl_cons]
    have : pyMaxStep none none = none := rfl
    rw [this]
    exact ih (fun y hy => h y (List.mem_cons_of_mem _ hy))

/-! ### Claim theorems about the scoring metric -/

/-- Claim C3: `evaluate_summary` compares the predicted summary and each
annotator row after left-aligned copying into zero vectors of length
`max(len(predicted), L)`: replacing the inputs by their explicitly
zero-padded copies of that length changes nothing, so every position
missing from the shorter vector counts as 0 (not selected). -/
theorem C3_zero_padding (p : List ℕ) (rows : List (List ℕ)) (L : ℕ)
    (m : String) (hrows : ∀ r ∈ rows, r.length = L) :
    evaluate_summary p rows L m =
      evaluate_summary (padTo p (max p.length L))
        (rows.map (fun r => padTo r (max p.length L))) (max p.length L) m := by
  have hp : p.length ≤ max p.length L := le_max_left _ _
  have hL : L ≤ max p.length L := le_max_right _ _
  unfold evaluate_summary
  dsimp only
  rw [padTo_length hp, max_self, padTo_idem hp, List.map_map]
  have hAB : rows.map ((fun row =>
        fScoreRow (padTo p (max p.length L)) (padTo row (max p.length L))) ∘
          fun r => padTo r (max p.length L)) =
      rows.map (fun row =>
        fScoreRow (padTo p (max p.length L)) (padTo row (max p.length L))) := by
    refine List.map_congr_left ?_
    intro r hr
    have hlen : r.length ≤ max p.length L := by rw [hrows r hr]; exact hL
    simp only [Function.comp_apply]
    rw [padTo_idem hlen]
  rw [hAB]

/-- Witness for C3 at a concrete input: predicted shorter than the rows. -/
theorem C3_zero_padding_witness :
    evaluate_summary [1, 1] [[1, 1, 0, 0]] 4 "max" =
      evaluate_summary (padTo [1, 1] 4) [padTo [1, 1, 0, 0] 4] 4 "max" := by
  have h := C3_zero_padding [1, 1] [[1, 1, 0, 0]] 4 "max"
    (by intro r hr; simp at hr; subst hr; rfl)
  simpa using h

/-- Claim C4: whenever an annotator's precision and recall are both defined
(nonzero selections on both sides) and sum to 0 — i.e. the overlap is
empty — the annotator's f-score is 0 rather than undefined; in
particular `evaluate_summary([1,0,0,0], [[0,1,1,0]], 'max')` returns 0.0. -/
theorem C4_zero_precision_recall :
    (∀ S G : List ℕ, S.sum ≠ 0 → G.sum ≠ 0 →
      (List.zipWith (fun a b => a &&& b) S G).sum = 0 → fScoreRow S G = some 0)
    ∧ evaluate_summary [1, 0, 0, 0] [[0, 1, 1, 0]] 4 "max" = .ok (some 0) := by
  constructor
  · intro S G hS hG hover
    unfold fScoreRow
    simp only [hover, Nat.cast_zero, ndiv, Nat.cast_eq_zero]
    rw [if_neg hS, if_neg hG]
    simp [nadd, pyEqZero]
  · have h1 : fScoreRow (padTo [1, 0, 0, 0] 4) (padTo [0, 1, 1, 0] 4) = some 0 := by
      unfold fScoreRow
      dsimp only [padTo]
      norm_num [ndiv, nadd, pyEqZero]
    unfold evaluate_summary
    dsimp only
    rw [show max (List.length [1, 0, 0, 0]) 4 = 4 by decide]
    rw [List.map_cons, List.map_nil, h1]
    rfl

/-- Witness for C4: the general part applied to the padded vectors of the
concrete no-overlap example. -/
theorem C4_zero_precision_recall_witness :
    fScoreRow [1, 0, 0, 0] [0, 1, 1, 0] = some 0 :=
  C4_zero_precision_recall.1 [1, 0, 0, 0] [0, 1, 1, 0]
    (by decide) (by decide) (by decide)

/-- Claim C6: a predicted summary with zero sum (with at least one
annotator row) raises no exception: the `0/0` precision division is NaN
and the NaN propagates to the returned value under every policy. -/
theorem C6_zero_predicted_nan (p : List ℕ) (rows : List (List ℕ)) (L : ℕ)
    (m : String) (hp : p.sum = 0) (hr : rows ≠ []) :
    evaluate_summary p rows L m = .ok none := by
  unfold evaluate_summary
  have hS : (padTo p (max p.length L)).sum = 0 := by rw [padTo_sum]; exact hp
  have hall : ∀ row ∈ rows,
      fScoreRow (padTo p (max p.length L)) (padTo row (max p.length L)) = none :=
    fun row _ => fScoreRow_none_of_S_sum_zero _ hS
  split
  · cases hrows : rows with
    | nil => exact absurd hrows hr
    | cons r t =>
      subst hrows
      simp only [List.map_cons]
      rw [hall r (List.mem_cons_self r t)]
      have ht : ∀ x ∈ t.map (fun row =>
          fScoreRow (padTo p (max p.length L)) (padTo row (max p.length L))),
          x = none := by
        intro x hx
        rcases List.mem_map.mp hx with ⟨row, hrow, hfx⟩
        exact hfx ▸ hall row (List.mem_cons_of_mem _ hrow)
      exact congrArg PyResult.ok (foldl_pyMaxStep_none ht)
  · cases hrows : rows with
    | nil => exact absurd hrows hr
    | cons r t =>
      subst hrows
      simp only [List.map_cons]
      rw [hall r (List.mem_cons_self r t)]
      have hmem : (none : Option ℚ) ∈
          none :: t.map (fun row =>
            fScoreRow (padTo p (max p.length L)) (padTo row (max p.length L))) :=
        List.mem_cons_self _ _
      rw [show nsum (none :: t.map (fun row =>
            fScoreRow (padTo p (max p.length L)) (padTo row (max p.length L)))) = none
          from foldl_nadd_of_none_mem hmem _]
      rfl

/-- Witness for C6: all-zero predicted summary against one annotator. -/
theorem C6_zero_predicted_nan_witness :
    evaluate_summary [0] [[1]] 1 "max" = .ok none :=
  C6_zero_predicted_nan [0] [[1]] 1 "max" rfl (by decide)

/-- Claim C10: with zero annotator rows `evaluate_summary` raises under
both policies — `max()` of an empty sequence for `'max'`, a zero division
in the mean otherwise — instead of returning a score. -/
theorem C10_empty_rows_raise (p : List ℕ) (L : ℕ) (m : String) :
    evaluate_summary p [] L m =
      .error (if m = "max" then "max() arg is an empty sequence"
              else "division by zero") := by
  unfold evaluate_summary
  simp only [List.map_nil]
  split <;> simp [*]

theorem foldl_trainF1Append (l : List (Option ℚ)) :
    ∀ acc, l.foldl trainF1Append acc = acc ++ l.filter (fun x => x.isSome) := by
  induction l with
  | nil => intro acc; simp
  | cons x t ih =>
    intro acc
    cases x with
    | none => simpa [trainF1Append] using ih acc
    | some a =>
      simp only [List.foldl_cons, trainF1Append, List.filter_cons]
      rw [if_neg (by simp), ih]
      simp

theorem foldl_evalF1Append (l : List (Option ℚ)) :
    ∀ acc, l.foldl evalF1Append acc = acc ++ l := by
  induction l with
  | nil => intro acc; simp
  | cons x t ih =>
    intro acc
    simp only [List.foldl_cons, evalF1Append]
    rw [ih]
    simp

/-- Claim C5: per-video F1 values are filtered asymmetrically.  The
training loop appends a value only when it passes the finiteness check
(`if not np.isnan(f1)`), so the epoch accumulator is the NaN-free
sublist; the evaluation pass appends every value unconditionally, so a
single NaN poisons `np.mean` of the per-set scores. -/
theorem C5_asymmetric_nan_filter :
    (∀ f1s : List (Option ℚ),
        trainF1Collect f1s = f1s.filter (fun x => x.isSome))
    ∧ (∀ f1s : List (Option ℚ), evalF1Collect f1s = f1s)
    ∧ (∀ f1s : List (Option ℚ), none ∈ f1s →
        npMean (evalF1Collect f1s) = none) := by
  refine ⟨fun f1s => ?_, fun f1s => ?_, fun f1s h => ?_⟩
  · simpa using foldl_trainF1Append f1s []
  · simpa using foldl_evalF1Append f1s []
  · unfold evalF1Collect npMean
    rw [foldl_evalF1Append f1s [], List.nil_append,
      show nsum f1s = none from foldl_nadd_of_none_mem h (some 0)]
    rfl

/-- Witness for C5: a NaN F1 value is dropped by the train accumulator,
kept by the evaluation accumulator, and poisons the evaluation mean. -/
theorem C5_asymmetric_nan_filter_witness :
    trainF1Collect [none] = [] ∧ evalF1Collect [none] = [none]
    ∧ npMean (evalF1Collect [none]) = none :=
  ⟨by simpa using C5_asymmetric_nan_filter.1 [none],
   C5_asymmetric_nan_filter.2.1 [none],
   C5_asymmetric_nan_filter.2.2 [none] (by decide)⟩

/-- Claim C9 counterexample: an unrecognized policy name can raise after
all — with zero annotator rows the fallback mean branch divides by the
length 0 of the score list, so "never raises an error" is false. -/
theorem C9_counterexample :
    evaluate_summary [1] [] 1 "median" = .error "division by zero" := rfl

/-- Claim C9 as amended: for every `eval_method` other than `'max'`,
provided at least one annotator row is present, `evaluate_summary` takes
the fallback branch and returns the arithmetic mean of the per-annotator
f-scores — identical to `'avg'` — and the unrecognized name itself never
triggers a dispatch error. -/
theorem C9_unrecognized_method_means (p : List ℕ) (rows : List (List ℕ))
    (L : ℕ) (m : String) (hm : m ≠ "max") (hr : rows ≠ []) :
    evaluate_summary p rows L m = evaluate_summary p rows L "avg"
    ∧ evaluate_summary p rows L m =
        .ok (npMean (rows.map (fun row =>
          fScoreRow (padTo p (max p.length L)) (padTo row (max p.length L))))) := by
  unfold evaluate_summary npMean
  dsimp only
  rw [if_neg hm, if_neg (by decide : ¬ (("avg" : String) = "max"))]
  cases rows with
  | nil => exact absurd rfl hr
  | cons r t => exact ⟨rfl, rfl⟩

/-- Witness for C9: the policy string `'median'` behaves like `'avg'`. -/
theorem C9_unrecognized_method_means_witness :
    evaluate_summary [1] [[1]] 1 "median" = evaluate_summary [1] [[1]] 1 "avg"
    ∧ evaluate_summary [1] [[1]] 1 "median" =
        .ok (npMean ([[1]].map (fun row =>
          fScoreRow (padTo [1] (max (List.length [1]) 1))
            (padTo row (max (List.length [1]) 1))))) :=
  C9_unrecognized_method_means [1] [[1]] 1 "median" (by decide) (by decide)

/-! ### Early stopping (Claim C1) -/

/-- The `diff` computed by the loop body at epoch `k` is `diffAt k`, given
that `last` carries the previous epoch's mean loss (100000 before epoch 0). -/
theorem epochDiff_eq_diffAt (losses : ℕ → ℚ) :
    ∀ k : ℕ, epochDiff (losses k) (match k with | 0 => 100000 | i + 1 => losses i) =
      diffAt losses k
  | 0 => rfl
  | _ + 1 => rfl

theorem trainEpochs_stop_spec (losses : ℕ → ℚ) :
    ∀ (m k fuel : ℕ),
      m < fuel →
      (∀ i, k ≤ i → i < k + m → diffAt losses i < 7) →
      diffAt losses (k + m) ≥ 7 →
      trainEpochs losses fuel k (match k with | 0 => 100000 | i + 1 => losses i) =
        ((List.range' k m).flatMap epochEvents, some (k + m)) := by
  intro m
  induction m with
  | zero =>
    intro k fuel hfuel _ hstop
    obtain ⟨f, rfl⟩ : ∃ f, fuel = f + 1 := ⟨fuel - 1, by omega⟩
    unfold trainEpochs
    dsimp only
    rw [epochDiff_eq_diffAt losses k, if_pos (by simpa using hstop)]
    simp
  | succ m ih =>
    intro k fuel hfuel hlt hstop
    obtain ⟨f, rfl⟩ : ∃ f, fuel = f + 1 := ⟨fuel - 1, by omega⟩
    unfold trainEpochs
    dsimp only
    rw [epochDiff_eq_diffAt losses k,
      if_neg (by simpa using not_le.mpr (hlt k le_rfl (by omega)))]
    have hrec := ih (k + 1) f (by omega)
      (fun i hi hi2 => hlt i (by omega) (by omega))
      (by rw [show k + 1 + m = k + (m + 1) by omega]; exact hstop)
    rw [show (match k + 1 with | 0 => (100000 : ℚ) | i + 1 => losses i) = losses k
        from rfl] at hrec
    rw [hrec, List.range'_succ]
    simp [epochEvents, List.flatMap_cons]
    omega

/-- Claim C1: training halts at the first epoch whose relative mean-loss
change `diff = (current_loss - last_loss)/current_loss * 100` is `≥ 7`,
and for that terminal epoch none of the post-check actions run: no
checkpoint save, no evaluation pass, no metric logging.  The trace is
exactly the four per-epoch actions for the epochs before the terminal
one.  The nonzero-loss hypothesis restricts the statement to inputs on
which the rational model of float division is faithful. -/
theorem C1_early_stopping (losses : ℕ → ℚ) (n_epochs j : ℕ)
    (_hnz : ∀ i, i ≤ j → losses i ≠ 0)
    (hjn : j < n_epochs)
    (hfirst : ∀ i, i < j → diffAt losses i < 7)
    (hstop : diffAt losses j ≥ 7) :
    train losses n_epochs = ((List.range j).flatMap epochEvents, some j)
    ∧ TEvent.checkpoint j ∉ (train losses n_epochs).1
    ∧ TEvent.evalPass j ∉ (train losses n_epochs).1
    ∧ TEvent.lossLog j ∉ (train losses n_epochs).1
    ∧ TEvent.textLog j ∉ (train losses n_epochs).1 := by
  have hmain : train losses n_epochs = ((List.range j).flatMap epochEvents, some j) := by
    have h := trainEpochs_stop_spec losses j 0 n_epochs (by omega)
      (fun i _ hi2 => hfirst i (by omega)) (by simpa using hstop)
    rw [Nat.zero_add] at h
    unfold train
    rw [List.range_eq_range']
    exact h
  refine ⟨hmain, ?_, ?_, ?_, ?_⟩ <;>
  · rw [hmain]
    simp only [List.mem_flatMap, List.mem_range, epochEvents, List.mem_cons,
      List.mem_singleton, List.not_mem_nil]
    rintro ⟨i, hi, hmem⟩
    rcases hmem with h | h | h | h | h <;> first
      | (cases h; omega)
      | cases h

/-- Witness for C1: losses 10, 9, 20 — the loop runs epochs 0 and 1 and
stops at epoch 2, where `diff = (20 - 9)/20*100 = 55 ≥ 7`. -/
theorem C1_early_stopping_witness :
    train (fun i => [10, 9, 20, 1, 1].getD i 1) 5 =
      ((List.range 2).flatMap epochEvents, some 2)
    ∧ TEvent.checkpoint 2 ∉ (train (fun i => [10, 9, 20, 1, 1].getD i 1) 5).1
    ∧ TEvent.evalPass 2 ∉ (train (fun i => [10, 9, 20, 1, 1].getD i 1) 5).1
    ∧ TEvent.lossLog 2 ∉ (train (fun i => [10, 9, 20, 1, 1].getD i 1) 5).1
    ∧ TEvent.textLog 2 ∉ (train (fun i => [10, 9, 20, 1, 1].getD i 1) 5).1 :=
  C1_early_stopping (fun i => [10, 9, 20, 1, 1].getD i 1) 5 2
    (by intro i hi; interval_cases i <;> norm_num)
    (by norm_num)
    (by intro i hi; interval_cases i <;> norm_num [diffAt, epochDiff])
    (by norm_num [diffAt, epochDiff])

/-! ### Batch structure of an epoch (Claim C8) -/

theorem videoLoop_spec {V : Type} :
    ∀ (n : ℕ) (vs : List V), n ≤ vs.length →
      videoLoop n vs = .ok ((vs.take n).map BEvent.video, vs.drop n) := by
  intro n
  induction n with
  | zero => intro vs _; simp [videoLoop]
  | succ n ih =>
    intro vs hn
    cases vs with
    | nil => simp at hn
    | cons v vs =>
      unfold videoLoop
      rw [ih vs (by simpa using hn)]
      simp

theorem batchLoop_spec {V : Type} :
    ∀ (b bs : ℕ) (vs : List V), b * bs ≤ vs.length →
      batchLoop b bs vs = .ok ((List.range b).flatMap (fun k =>
        BEvent.zeroGrad :: ((vs.drop (k * bs)).take bs).map BEvent.video
          ++ [BEvent.clipGrad, BEvent.optStep])) := by
  intro b
  induction b with
  | zero => intro bs vs _; simp [batchLoop]
  | succ b ih =>
    intro bs vs hb
    rw [Nat.succ_mul] at hb
    have hbs : bs ≤ vs.length := by omega
    unfold batchLoop
    rw [videoLoop_spec bs vs hbs]
    dsimp only
    have hrest : b * bs ≤ (vs.drop bs).length := by
      simp only [List.length_drop]
      omega
    rw [ih bs (vs.drop bs) hrest]
    simp only [List.range_succ_eq_map, List.flatMap_cons, Nat.zero_mul,
      List.drop_zero, List.flatMap_map]
    have harg : ∀ k : ℕ, ((vs.drop bs).drop (k * bs)).take bs =
        (vs.drop ((k + 1) * bs)).take bs := by
      intro k
      rw [List.drop_drop, show bs + k * bs = (k + 1) * bs by ring]
    simp only [harg]
    simp [Nat.succ_eq_add_one]

/-- Claim C8: an epoch's training phase runs exactly
`num_batches = ⌊len(train_loader) / batch_size⌋` batches and never
exhausts the iterator; each batch zeroes the accumulated gradients once,
then processes its `batch_size` videos sequentially (batch `k` takes
videos `k*batch_size` to `(k+1)*batch_size - 1`), then performs exactly
one gradient clip followed by one optimizer step.  The positivity
hypothesis mirrors Python, where `int(len/0)` would raise. -/
theorem C8_batch_structure {V : Type} (videos : List V) (batch_size : ℕ)
    (_hbs : 0 < batch_size) :
    epochTrainPhase videos batch_size =
      .ok ((List.range (videos.length / batch_size)).flatMap (fun k =>
        BEvent.zeroGrad ::
          ((videos.drop (k * batch_size)).take batch_size).map BEvent.video
          ++ [BEvent.clipGrad, BEvent.optStep])) := by
  unfold epochTrainPhase
  exact batchLoop_spec _ _ _ (Nat.div_mul_le_self _ _)

/-- Witness for C8: five videos with batch size 2 give two full batches;
the fifth video is never drawn. -/
theorem C8_batch_structure_witness :
    epochTrainPhase [0, 1, 2, 3, 4] 2 =
      .ok [BEvent.zeroGrad, BEvent.video 0, BEvent.video 1,
           BEvent.clipGrad, BEvent.optStep,
           BEvent.zeroGrad, BEvent.video 2, BEvent.video 3,
           BEvent.clipGrad, BEvent.optStep] := by
  rw [C8_batch_structure [0, 1, 2, 3, 4] 2 (by decide)]
  rfl

/-! ### Weight initializer (Claim C2) -/

theorem init_weights_supported (F : InitOracles) (t : String)
    (ht : t = "normal" ∨ t = "xavier" ∨ t = "kaiming" ∨ t = "orthogonal") :
    ∀ params, init_weights F t params = .ok (params.map (applyPolicy F t)) := by
  intro params
  induction params with
  | nil => rfl
  | cons q rest ih =>
    obtain ⟨name, param⟩ := q
    rcases ht with rfl | rfl | rfl | rfl <;>
    · by_cases hw : weightBranch name
      · simp [init_weights, hw, ih, applyPolicy, pickInit]
      · by_cases hbias : biasBranch name
        · simp [init_weights, hw, hbias, ih, applyPolicy]
        · simp [init_weights, hw, hbias, ih, applyPolicy]

theorem init_weights_unsupported (F : InitOracles) (t : String)
    (ht : ¬(t = "normal" ∨ t = "xavier" ∨ t = "kaiming" ∨ t = "orthogonal")) :
    ∀ (pre : List (String × Tensor)) (nw : String) (pw : Tensor)
      (suf : List (String × Tensor)),
      (∀ q ∈ pre, weightBranch q.1 = false) → weightBranch nw = true →
      init_weights F t (pre ++ (nw, pw) :: suf) =
        .error (initErrMsg t, pre.map (applyPolicy F t) ++ (nw, pw) :: suf) := by
  push_neg at ht
  obtain ⟨h1, h2, h3, h4⟩ := ht
  intro pre
  induction pre with
  | nil =>
    intro nw pw suf _ hnw
    simp [init_weights, hnw, h1, h2, h3, h4]
  | cons q rest ih =>
    intro nw pw suf hpre hnw
    obtain ⟨name, param⟩ := q
    have hw : weightBranch name = false := hpre (name, param) (List.mem_cons_self _ _)
    have hrec := ih nw pw suf (fun x hx => hpre x (List.mem_cons_of_mem _ hx)) hnw
    by_cases hbias : biasBranch name
    · simp [init_weights, hw, hbias, hrec, applyPolicy]
    · simp [init_weights, hw, hbias, hrec, applyPolicy]

theorem applyPolicy_fst (F : InitOracles) (t : String) (q : String × Tensor) :
    (applyPolicy F t q).1 = q.1 := by
  unfold applyPolicy
  split_ifs <;> rfl

theorem applyPolicy_bias {F : InitOracles} {t : String} {q : String × Tensor}
    (hb : biasBranch q.1 = true) (hw : weightBranch q.1 = false) :
    (applyPolicy F t q).2 = fun _ => (1 / 10 : ℚ) := by
  simp only [applyPolicy, hw, hb, Bool.false_eq_true, if_false, if_true]
  rfl

/-- Claim C2 counterexample.  First: with the supported policy `'normal'`
a parameter named `weight_bias` — whose name contains both `'weight'` and
`'bias'` — takes the weight branch, so after `init_weights` it need not
equal the constant 0.1 (here the initializer oracle leaves it all-zero).
Second: with the unsupported policy `'bogus'`, a bias parameter listed
before the first weight parameter is set to 0.1 before the error is
raised, so the failure is not all-or-nothing. -/
theorem C2_counterexample :
    (init_weights idOracles "normal" [("weight_bias", zeroTensor)] =
        .ok [("weight_bias", zeroTensor)]
      ∧ zeroTensor 0 ≠ (1 / 10 : ℚ))
    ∧ (init_weights idOracles "bogus" [("a.bias", zeroTensor), ("b.weight", zeroTensor)] =
        .error (initErrMsg "bogus",
          [("a.bias", fun _ => (1 / 10 : ℚ)), ("b.weight", zeroTensor)])
      ∧ (fun _ => (1 / 10 : ℚ)) 0 ≠ zeroTensor 0) := by
  refine ⟨⟨rfl, ?_⟩, rfl, ?_⟩ <;> · unfold zeroTensor; norm_num

/-- Claim C2 as amended: under a supported policy, `init_weights` succeeds
and every parameter whose name contains `'bias'` and is not captured by
the weight branch (`'weight' in name and 'norm' not in name`) ends equal
to the constant 0.1, while weight-branch parameters get the policy
initializer; under an unsupported policy, the unimplemented-method error
naming the policy is raised at the first weight-branch parameter, and the
bias parameters before it are already set to 0.1 — the mutation is not
all-or-nothing. -/
theorem C2_bias_constant_and_raise (F : InitOracles) (t : String)
    (params : List (String × Tensor)) :
    ((t = "normal" ∨ t = "xavier" ∨ t = "kaiming" ∨ t = "orthogonal") →
      init_weights F t params = .ok (params.map (applyPolicy F t))
      ∧ ∀ pr ∈ params.map (applyPolicy F t),
          biasBranch pr.1 = true → weightBranch pr.1 = false →
          pr.2 = fun _ => (1 / 10 : ℚ))
    ∧ (¬(t = "normal" ∨ t = "xavier" ∨ t = "kaiming" ∨ t = "orthogonal") →
      ∀ (pre : List (String × Tensor)) (nw : String) (pw : Tensor)
        (suf : List (String × Tensor)),
        params = pre ++ (nw, pw) :: suf →
        (∀ q ∈ pre, weightBranch q.1 = false) → weightBranch nw = true →
        init_weights F t params =
          .error (initErrMsg t, pre.map (applyPolicy F t) ++ (nw, pw) :: suf)
        ∧ ∀ pr ∈ pre.map (applyPolicy F t),
            biasBranch pr.1 = true → pr.2 = fun _ => (1 / 10 : ℚ)) := by
  constructor
  · intro ht
    refine ⟨init_weights_supported F t ht params, ?_⟩
    intro pr hpr hb hwf
    rcases List.mem_map.mp hpr with ⟨q, _, hqe⟩
    subst hqe
    rw [applyPolicy_fst] at hb hwf
    exact applyPolicy_bias hb hwf
  · intro ht pre nw pw suf hparams hpre hnw
    subst hparams
    refine ⟨init_weights_unsupported F t ht pre nw pw suf hpre hnw, ?_⟩
    intro pr hpr hb
    rcases List.mem_map.mp hpr with ⟨q, hq, hqe⟩
    subst hqe
    rw [applyPolicy_fst] at hb
    exact applyPolicy_bias hb (hpre q hq)

/-- Witness for C2 as amended: a supported run setting a lone bias
parameter, and an unsupported run raising at a leading weight parameter. -/
theorem C2_bias_constant_and_raise_witness :
    (init_weights idOracles "normal" [("a.bias", zeroTensor)] =
        .ok ([("a.bias", zeroTensor)].map (applyPolicy idOracles "normal"))
      ∧ ∀ pr ∈ [("a.bias", zeroTensor)].map (applyPolicy idOracles "normal"),
          biasBranch pr.1 = true → weightBranch pr.1 = false →
          pr.2 = fun _ => (1 / 10 : ℚ))
    ∧ (init_weights idOracles "bogus" [("b.weight", zeroTensor)] =
        .error (initErrMsg "bogus",
          ([] : List (String × Tensor)).map (applyPolicy idOracles "bogus") ++
            [("b.weight", zeroTensor)])
      ∧ ∀ pr ∈ ([] : List (String × Tensor)).map (applyPolicy idOracles "bogus"),
          biasBranch pr.1 = true → pr.2 = fun _ => (1 / 10 : ℚ)) :=
  ⟨(C2_bias_constant_and_raise idOracles "normal" [("a.bias", zeroTensor)]).1
      (Or.inl rfl),
   (C2_bias_constant_and_raise idOracles "bogus" [("b.weight", zeroTensor)]).2
      (by decide) [] "b.weight" zeroTensor [] rfl (by simp) (by decide)⟩

/-! ### Annotator-order sensitivity (Claim C7) -/

theorem ndiv_some {a b : ℚ} (hb : b ≠ 0) : ndiv (some a) (some b) = some (a / b) := by
  simp [ndiv, hb]

theorem nadd_right_comm (z x y : Option ℚ) :
    nadd (nadd z x) y = nadd (nadd z y) x := by
  cases z <;> cases x <;> cases y <;> simp [nadd, add_right_comm]

theorem nsum_perm {l l' : List (Option ℚ)} (h : l.Perm l') : nsum l = nsum l' :=
  h.foldl_eq' (fun x _ y _ z => nadd_right_comm z x y) (some 0)

theorem pyMaxStep_some (a b : ℚ) :
    pyMaxStep (some a) (some b) = some (max a b) := by
  unfold pyMaxStep pyGt
  by_cases h : a < b
  · simp [h, max_eq_right h.le]
  · simp [h, max_eq_left (not_lt.mp h)]

theorem foldl_pyMaxStep_somes (qs : List ℚ) :
    ∀ a : ℚ, (qs.map some).foldl pyMaxStep (some a) = some (qs.foldl max a) := by
  induction qs with
  | nil => intro a; rfl
  | cons q t ih =>
    intro a
    simp only [List.map_cons, List.foldl_cons, pyMaxStep_some]
    exact ih (max a q)

theorem foldl_max_eq_or_mem (qs : List ℚ) :
    ∀ a : ℚ, qs.foldl max a = a ∨ qs.foldl max a ∈ qs := by
  induction qs with
  | nil => intro a; exact Or.inl rfl
  | cons q t ih =>
    intro a
    simp only [List.foldl_cons]
    rcases ih (max a q) with h | h
    · rcases le_total a q with hq | hq
      · rw [h, max_eq_right hq]
        exact Or.inr (List.mem_cons_self _ _)
      · rw [h, max_eq_left hq]
        exact Or.inl rfl
    · exact Or.inr (List.mem_cons_of_mem _ h)

theorem le_foldl_max_init (qs : List ℚ) : ∀ a : ℚ, a ≤ qs.foldl max a := by
  induction qs with
  | nil => intro a; exact le_refl a
  | cons q t ih =>
    intro a
    simp only [List.foldl_cons]
    exact le_trans (le_max_left a q) (ih (max a q))

theorem le_foldl_max_mem (qs : List ℚ) :
    ∀ (a x : ℚ), x ∈ qs → x ≤ qs.foldl max a := by
  induction qs with
  | nil => intro a x hx; cases hx
  | cons q t ih =>
    intro a x hx
    simp only [List.foldl_cons]
    rcases List.mem_cons.mp hx with h | h
    · subst h
      exact le_trans (le_max_right a x) (le_foldl_max_init t (max a x))
    · exact ih (max a q) x h

theorem foldl_max_perm_cons {x y : ℚ} {xs ys : List ℚ}
    (h : (x :: xs).Perm (y :: ys)) : xs.foldl max x = ys.foldl max y := by
  have hmemA : xs.foldl max x ∈ x :: xs := by
    rcases foldl_max_eq_or_mem xs x with h1 | h1
    · rw [h1]; exact List.mem_cons_self _ _
    · exact List.mem_cons_of_mem _ h1
  have hmemB : ys.foldl max y ∈ y :: ys := by
    rcases foldl_max_eq_or_mem ys y with h1 | h1
    · rw [h1]; exact List.mem_cons_self _ _
    · exact List.mem_cons_of_mem _ h1
  have hle1 : xs.foldl max x ≤ ys.foldl max y := by
    rcases List.mem_cons.mp (h.subset hmemA) with h2 | h2
    · rw [h2]; exact le_foldl_max_init ys y
    · exact le_foldl_max_mem ys y _ h2
  have hle2 : ys.foldl max y ≤ xs.foldl max x := by
    rcases List.mem_cons.mp (h.symm.subset hmemB) with h2 | h2
    · rw [h2]; exact le_foldl_max_init xs x
    · exact le_foldl_max_mem xs x _ h2
  exact le_antisymm hle1 hle2

theorem fScoreCore_isSome (pv rv : ℚ) :
    ∃ q : ℚ, (if pyEqZero (nadd (some pv) (some rv)) then some (0 : ℚ)
      else ndiv (nmul (nmul (nmul (some 2) (some pv)) (some rv)) (some 100))
        (nadd (some pv) (some rv))) = some q := by
  simp only [nadd, nmul]
  split
  · exact ⟨0, rfl⟩
  · next hne =>
    have hsum : pv + rv ≠ 0 := by simpa [pyEqZero] using hne
    rw [ndiv_some hsum]
    exact ⟨_, rfl⟩

theorem fScoreRow_isSome {S G : List ℕ} (hS : S.sum ≠ 0) (hG : G.sum ≠ 0) :
    ∃ q : ℚ, fScoreRow S G = some q := by
  unfold fScoreRow
  dsimp only
  rw [ndiv_some (by exact_mod_cast hS), ndiv_some (by exact_mod_cast hG)]
  exact fScoreCore_isSome _ _

/-- Claim C7 as amended: the returned value is unchanged under any
permutation of the annotator rows whenever the policy is not `'max'`
(the mean, in exact arithmetic, is order-free, NaN or not); under
`'max'` it is unchanged provided no per-annotator f-score is NaN — in
particular whenever the predicted summary and every annotator row have
nonzero sums.  (With NaN scores present, Python's `max` keeps the
current value on every NaN comparison, so `'max'` is order-sensitive;
see the counterexample.) -/
theorem C7_permutation (p : List ℕ) (rows rows2 : List (List ℕ)) (L : ℕ)
    (m : String) (hperm : rows.Perm rows2) :
    (m ≠ "max" → evaluate_summary p rows L m = evaluate_summary p rows2 L m)
    ∧ (p.sum ≠ 0 → (∀ r ∈ rows, r.sum ≠ 0) →
        evaluate_summary p rows L m = evaluate_summary p rows2 L m) := by
  rcases rows with _ | ⟨r, rt⟩
  · have h2 : rows2 = [] := List.perm_nil.mp hperm.symm
    subst h2
    exact ⟨fun _ => rfl, fun _ _ => rfl⟩
  rcases rows2 with _ | ⟨s, st⟩
  · exact (List.cons_ne_nil r rt (List.perm_nil.mp hperm)).elim
  have hpermf := hperm.map
    (fun row => fScoreRow (padTo p (max p.length L)) (padTo row (max p.length L)))
  have hElse : m ≠ "max" →
      evaluate_summary p (r :: rt) L m = evaluate_summary p (s :: st) L m := by
    intro hm
    unfold evaluate_summary
    dsimp only
    rw [if_neg hm, if_neg hm]
    have h1 := nsum_perm hpermf
    have h2 := hpermf.length_eq
    simp only [List.map_cons] at h1 h2 ⊢
    rw [h1, h2]
  refine ⟨hElse, ?_⟩
  intro hp hrows
  by_cases hm : m = "max"
  case neg => exact hElse hm
  subst hm
  unfold evaluate_summary
  dsimp only
  rw [if_pos rfl, if_pos rfl]
  have hsome : ∀ row ∈ r :: rt,
      fScoreRow (padTo p (max p.length L)) (padTo row (max p.length L)) =
        some ((fScoreRow (padTo p (max p.length L))
          (padTo row (max p.length L))).getD 0) := by
    intro row hrow
    obtain ⟨q, hq⟩ := @fScoreRow_isSome (padTo p (max p.length L))
      (padTo row (max p.length L))
      (by rw [padTo_sum]; exact hp)
      (by rw [padTo_sum]; exact hrows row hrow)
    rw [hq]
    rfl
  have hsome2 : ∀ row ∈ s :: st,
      fScoreRow (padTo p (max p.length L)) (padTo row (max p.length L)) =
        some ((fScoreRow (padTo p (max p.length L))
          (padTo row (max p.length L))).getD 0) := by
    intro row hrow
    exact hsome row (hperm.mem_iff.mpr hrow)
  have hmap1 : (r :: rt).map
      (fun row => fScoreRow (padTo p (max p.length L)) (padTo row (max p.length L))) =
      ((r :: rt).map (fun row => (fScoreRow (padTo p (max p.length L))
        (padTo row (max p.length L))).getD 0)).map some := by
    rw [List.map_map]
    exact List.map_congr_left (fun row hrow => by
      rw [Function.comp_apply]
      exact hsome row hrow)
  have hmap2 : (s :: st).map
      (fun row => fScoreRow (padTo p (max p.length L)) (padTo row (max p.length L))) =
      ((s :: st).map (fun row => (fScoreRow (padTo p (max p.length L))
        (padTo row (max p.length L))).getD 0)).map some := by
    rw [List.map_map]
    exact List.map_congr_left (fun row hrow => by
      rw [Function.comp_apply]
      exact hsome2 row hrow)
  simp only [List.map_cons] at hmap1 hmap2 ⊢
  rw [List.cons.injEq] at hmap1 hmap2
  obtain ⟨hh1, ht1⟩ := hmap1
  obtain ⟨hh2, ht2⟩ := hmap2
  rw [hh1, ht1, hh2, ht2, foldl_pyMaxStep_somes, foldl_pyMaxStep_somes]
  have hpermq := hperm.map (fun row => (fScoreRow (padTo p (max p.length L))
    (padTo row (max p.length L))).getD 0)
  simp only [List.map_cons] at hpermq
  rw [foldl_max_perm_cons hpermq]

/-- Claim C7 counterexample: under `'max'` the result is *not* invariant
under permutation of annotator rows.  With predicted `[1]` and rows
`[[0], [1]]`, the first row's all-zero ground truth makes its f-score
NaN; Python's `max` started at NaN keeps NaN, while with the rows
swapped it keeps the 100.0 computed first. -/
theorem C7_counterexample :
    evaluate_summary [1] [[0], [1]] 1 "max" = .ok none
    ∧ evaluate_summary [1] [[1], [0]] 1 "max" = .ok (some 100)
    ∧ ([[0], [1]] : List (List ℕ)).Perm [[1], [0]]
    ∧ evaluate_summary [1] [[0], [1]] 1 "max" ≠
        evaluate_summary [1] [[1], [0]] 1 "max" := by
  have h0 : fScoreRow (padTo [1] 1) (padTo [0] 1) = none := by
    unfold fScoreRow
    dsimp only [padTo]
    norm_num [ndiv, nadd, nmul, pyEqZero]
  have h1 : fScoreRow (padTo [1] 1) (padTo [1] 1) = some 100 := by
    unfold fScoreRow
    dsimp only [padTo]
    norm_num [ndiv, nadd, nmul, pyEqZero]
  have ha : evaluate_summary [1] [[0], [1]] 1 "max" = .ok none := by
    unfold evaluate_summary
    dsimp only
    rw [show max (List.length [1]) 1 = 1 by decide]
    rw [List.map_cons, List.map_cons, List.map_nil, h0, h1]
    rfl
  have hb : evaluate_summary [1] [[1], [0]] 1 "max" = .ok (some 100) := by
    unfold evaluate_summary
    dsimp only
    rw [show max (List.length [1]) 1 = 1 by decide]
    rw [List.map_cons, List.map_cons, List.map_nil, h0, h1]
    rfl
  refine ⟨ha, hb, List.Perm.swap [1] [0] [], ?_⟩
  rw [ha, hb]
  simp

/-- Witness for C7 as amended: with no all-zero row the result is
invariant under swapping the two annotators, for `'avg'` and `'max'`. -/
theorem C7_permutation_witness :
    evaluate_summary [1] [[1], [0, 1]] 2 "avg" =
      evaluate_summary [1] [[0, 1], [1]] 2 "avg"
    ∧ evaluate_summary [1] [[1], [0, 1]] 2 "max" =
        evaluate_summary [1] [[0, 1], [1]] 2 "max" :=
  ⟨(C7_permutation [1] [[1], [0, 1]] [[0, 1], [1]] 2 "avg"
      (List.Perm.swap [0, 1] [1] [])).1 (by decide),
   (C7_permutation [1] [[1], [0, 1]] [[0, 1], [1]] 2 "max"
      (List.Perm.swap [0, 1] [1] [])).2 (by decide) (by decide)⟩

end PGLSum
